import Mathlib

/-!
# Verification of the AJOB4AGENT core against its specification

This file gives a shallow embedding, in Lean 4, of the core logic of the
AJOB4AGENT repository and proves (or refutes) the frozen behavioural claims
about it.

Embedded components and their sources:

* `make_request_with_retry` — the retry loop of
  `services/llm-service/src/services/openai_client.py`
  (`OpenAIClient._make_request_with_retry`).
* `parse_json_response` — `OpenAIClient.parse_json_response` from the same
  file.
* `tailor_postprocess` — the post-parse normalisation section of
  `services/llm-service/src/services/resume_tailor.py`
  (`ResumeTailorService.tailor_resume`, after the model response is parsed).
* `llm_callback` / `process_status_log` — the queue-worker message callbacks
  of `files/services/llm-service/app/worker.py` and
  `services/agent-monitoring-service/app/worker.py`.
* `extract_skills_from_resume`, `score_jobs`, `calculate_score` — the scoring
  engine of `src/processing.py`.

Texts are modelled as lists of Unicode code points (`List Nat`); `lc`
converts a Lean string literal to this representation.  Python's `str.find`
returning `-1` is modelled as `Option Nat` returning `none`.
-/

/-- Texts (Python `str`) are modelled as lists of Unicode code points. -/
abbrev Text := List Nat

/-- Code-point list of a string literal. -/
def lc (s : String) : Text := s.data.map Char.toNat

/-- Python `\s` on the ASCII range: space, tab, newline, carriage return,
vertical tab, form feed.  (All texts in this development are ASCII.) -/
def isSpace (n : Nat) : Bool :=
  n == 32 || n == 9 || n == 10 || n == 13 || n == 11 || n == 12

/-- Python `\w` on the ASCII range: digits, letters, underscore. -/
def isWord (n : Nat) : Bool :=
  (48 ≤ n && n ≤ 57) || (65 ≤ n && n ≤ 90) || (97 ≤ n && n ≤ 122) || n == 95

/-- Python `str.lower` on one ASCII code point. -/
def lowerN (n : Nat) : Nat := if 65 ≤ n ∧ n ≤ 90 then n + 32 else n

/-- Python `str.lower`. -/
def lowerT (t : Text) : Text := t.map lowerN

/-- Python `str.strip()`: drop leading and trailing whitespace. -/
def trimT (t : Text) : Text :=
  ((t.dropWhile isSpace).reverse.dropWhile isSpace).reverse

/-- `isPrefixT p t`: `p` occurs at the start of `t`. -/
def isPrefixT : Text → Text → Bool
  | [], _ => true
  | _ :: _, [] => false
  | a :: p, b :: t => a == b && isPrefixT p t

/-- Auxiliary scan for `findSub`; `i` is the index of the head of `t` in the
original text. -/
def findSubAux (pat : Text) : Text → Nat → Option Nat
  | [], i => if isPrefixT pat [] then some i else none
  | c :: rest, i =>
    if isPrefixT pat (c :: rest) then some i else findSubAux pat rest (i + 1)

/-- Python `t.find(pat)`: index of the leftmost occurrence (`none` for `-1`). -/
def findSub (pat t : Text) : Option Nat := findSubAux pat t 0

/-- Python `t.find(pat, start)`: leftmost occurrence at index `≥ start`. -/
def findSubFrom (pat t : Text) (start : Nat) : Option Nat :=
  (findSub pat (t.drop start)).map (· + start)

/-- Python slice `t[a:b]` (for `a ≤ b`). -/
def sliceT (t : Text) (a b : Nat) : Text := (t.drop a).take (b - a)

/-! ## Basic lemmas about the text utilities -/

theorem lowerN_idem (n : Nat) : lowerN (lowerN n) = lowerN n := by
  unfold lowerN
  split_ifs <;> omega

theorem isWord_lowerN (n : Nat) : isWord (lowerN n) = isWord n := by
  unfold lowerN isWord
  split_ifs with h
  · apply Bool.eq_iff_iff.mpr
    simp only [Bool.or_eq_true, Bool.and_eq_true, decide_eq_true_eq, beq_iff_eq]
    omega
  · rfl

theorem dropWhile_head_false {p : Nat → Bool} {l : Text} {c : Nat}
    (h : (l.dropWhile p).head? = some c) : p c = false := by
  induction l with
  | nil => simp [List.dropWhile] at h
  | cons a l ih =>
    rw [List.dropWhile_cons] at h
    split at h
    · exact ih h
    · simp at h
      subst h
      rename_i hp
      simpa using hp

theorem dropWhile_eq_self_of_head {p : Nat → Bool} {l : Text}
    (h : ∀ c, l.head? = some c → p c = false) : l.dropWhile p = l := by
  cases l with
  | nil => rfl
  | cons a l =>
    rw [List.dropWhile_cons, h a rfl]
    simp

theorem getLast?_dropWhile {p : Nat → Bool} {l : Text}
    (h : l.dropWhile p ≠ []) : (l.dropWhile p).getLast? = l.getLast? := by
  induction l with
  | nil => simp [List.dropWhile] at h
  | cons a l ih =>
    rw [List.dropWhile_cons]
    rw [List.dropWhile_cons] at h
    split at h
    · rename_i hp
      rw [if_pos hp]
      cases l with
      | nil => simp [List.dropWhile] at h
      | cons b t => rw [ih h, List.getLast?_cons_cons]
    · rename_i hp
      rw [if_neg hp]

theorem trimT_head {l : Text} {c : Nat} (h : (trimT l).head? = some c) :
    isSpace c = false := by
  unfold trimT at h
  rw [List.head?_reverse] at h
  by_cases hne : (l.dropWhile isSpace).reverse.dropWhile isSpace = []
  · rw [hne] at h
    simp at h
  · rw [getLast?_dropWhile hne, List.getLast?_reverse] at h
    exact dropWhile_head_false h

theorem trimT_getLast {l : Text} {c : Nat} (h : (trimT l).getLast? = some c) :
    isSpace c = false := by
  unfold trimT at h
  rw [List.getLast?_reverse] at h
  exact dropWhile_head_false h

theorem trimT_eq_self {l : Text}
    (h1 : ∀ c, l.head? = some c → isSpace c = false)
    (h2 : ∀ c, l.getLast? = some c → isSpace c = false) : trimT l = l := by
  unfold trimT
  rw [dropWhile_eq_self_of_head h1]
  rw [dropWhile_eq_self_of_head (by intro c hc; rw [List.head?_reverse] at hc; exact h2 c hc)]
  exact List.reverse_reverse l

theorem trimT_idem (l : Text) : trimT (trimT l) = trimT l :=
  trimT_eq_self (fun _ hc => trimT_head hc) (fun _ hc => trimT_getLast hc)

/-! ## ResilientModelClient: `OpenAIClient._make_request_with_retry`

`openai_client.py` loops `for attempt in range(self.max_retries)`.  Each
iteration calls the transport once.  `RateLimitError`, `APIConnectionError`
and `APITimeoutError` are caught, remembered in `last_exception`, and the
loop continues after a backoff sleep; any other `OpenAIError` is re-raised
immediately as `OpenAIClientError(f"OpenAI API error: {e}") from e`.  When
the loop ends without success it raises
`OpenAIClientError(f"Failed after {max_retries} retries: {last}") from last`.

The transport is modelled as a function from the attempt index to the
outcome of that single call; the backoff sleeps do not affect the result
value and are not modelled. -/

/-- The provider-side failures the client distinguishes
(`openai.RateLimitError`, `openai.APIConnectionError`,
`openai.APITimeoutError`, and any other `openai.OpenAIError`). -/
inductive ProviderError where
  | rateLimitError (msg : String)
  | apiConnectionError (msg : String)
  | apiTimeoutError (msg : String)
  | otherOpenAIError (msg : String)
deriving DecidableEq, Repr

/-- `str(e)` of a provider error. -/
def ProviderError.str : ProviderError → String
  | .rateLimitError m => m
  | .apiConnectionError m => m
  | .apiTimeoutError m => m
  | .otherOpenAIError m => m

/-- The three error classes with a dedicated `except` clause, i.e. the
ones that are retried. -/
def ProviderError.isTransient : ProviderError → Bool
  | .rateLimitError _ => true
  | .apiConnectionError _ => true
  | .apiTimeoutError _ => true
  | .otherOpenAIError _ => false

/-- Outcome of one transport invocation
(`await self._client.chat.completions.create(...)` plus field extraction). -/
inductive TransportResult where
  | success (content : String) (tokens : Nat)
  | failure (e : ProviderError)
deriving DecidableEq, Repr

/-- The `OpenAIClientError` raised by the client; `cause` models the
`raise ... from e` chain (`None` for no cause). -/
structure ClientError where
  msg : String
  cause : Option ProviderError
deriving DecidableEq, Repr

/-- Result of `_make_request_with_retry` paired with how many times the
transport was invoked. -/
def retryLoop (transport : Nat → TransportResult) (maxRetries : Nat) :
    Nat → Nat → Option ProviderError → Except ClientError (String × Nat) × Nat
  | 0, _, last =>
    (.error ⟨"Failed after " ++ toString maxRetries ++ " retries: " ++
      (last.map ProviderError.str).getD "None", last⟩, 0)
  | remaining + 1, attempt, _ =>
    match transport attempt with
    | .success content tokens => (.ok (content, tokens), 1)
    | .failure e =>
      if e.isTransient then
        let r := retryLoop transport maxRetries remaining (attempt + 1) (some e)
        (r.1, r.2 + 1)
      else
        (.error ⟨"OpenAI API error: " ++ e.str, some e⟩, 1)

/-- `OpenAIClient._make_request_with_retry`: returns the result together
with the number of transport invocations that were made. -/
def make_request_with_retry (transport : Nat → TransportResult)
    (maxRetries : Nat) : Except ClientError (String × Nat) × Nat :=
  retryLoop transport maxRetries maxRetries 0 none

/-- Claim C1: with `max_retries = 3`, a transport that fails with a
transient error on the first two attempts and succeeds on the third makes
the call return that success after exactly 3 transport invocations; and a
transport that fails with a transient error on every attempt makes the call
raise the typed `OpenAIClientError` after exactly 3 transport invocations,
with that error chained (`from`) to the failure of the last attempt. -/
theorem c1_retry_three_attempts
    (t₁ t₂ : Nat → TransportResult) (e0 e1 : ProviderError)
    (content : String) (tokens : Nat)
    (h0 : t₁ 0 = .failure e0) (h0t : e0.isTransient = true)
    (h1 : t₁ 1 = .failure e1) (h1t : e1.isTransient = true)
    (h2 : t₁ 2 = .success content tokens)
    (f0 f1 f2 : ProviderError)
    (g0 : t₂ 0 = .failure f0) (g0t : f0.isTransient = true)
    (g1 : t₂ 1 = .failure f1) (g1t : f1.isTransient = true)
    (g2 : t₂ 2 = .failure f2) (g2t : f2.isTransient = true) :
    make_request_with_retry t₁ 3 = (.ok (content, tokens), 3) ∧
    make_request_with_retry t₂ 3 =
      (.error ⟨"Failed after " ++ toString 3 ++ " retries: " ++ f2.str, some f2⟩, 3) := by
  constructor
  · simp [make_request_with_retry, retryLoop, h0, h0t, h1, h1t, h2]
  · simp [make_request_with_retry, retryLoop, g0, g0t, g1, g1t, g2, g2t,
      ProviderError.str]

/-- Closed witness for `c1_retry_three_attempts`. -/
theorem c1_retry_three_attempts_witness :
    make_request_with_retry
      (fun i => match i with
        | 0 => .failure (.rateLimitError "rl")
        | 1 => .failure (.apiTimeoutError "to")
        | _ => .success "ok" 7) 3 = (.ok ("ok", 7), 3) ∧
    make_request_with_retry
      (fun i => match i with
        | 0 => .failure (.rateLimitError "rl")
        | 1 => .failure (.apiConnectionError "conn")
        | _ => .failure (.apiTimeoutError "to")) 3 =
      (.error ⟨"Failed after " ++ toString 3 ++ " retries: " ++
          (ProviderError.apiTimeoutError "to").str,
        some (.apiTimeoutError "to")⟩, 3) :=
  c1_retry_three_attempts _ _ (.rateLimitError "rl") (.apiTimeoutError "to") "ok" 7
    rfl rfl rfl rfl rfl (.rateLimitError "rl") (.apiConnectionError "conn")
    (.apiTimeoutError "to") rfl rfl rfl rfl rfl rfl

/-- Helper: a run of transient failures followed by a non-transient failure
stops the loop at the non-transient failure. -/
theorem retryLoop_permanent (transport : Nat → TransportResult)
    (maxRetries : Nat) (e : ProviderError) (hperm : e.isTransient = false) :
    ∀ remaining attempt j last, j < remaining →
    transport (attempt + j) = .failure e →
    (∀ i < j, ∃ f, transport (attempt + i) = .failure f ∧ f.isTransient = true) →
    retryLoop transport maxRetries remaining attempt last =
      (.error ⟨"OpenAI API error: " ++ e.str, some e⟩, j + 1) := by
  intro remaining
  induction remaining with
  | zero => intro attempt j last hj; omega
  | succ r ih =>
    intro attempt j last hj hfail hprev
    cases j with
    | zero =>
      simp only [Nat.add_zero] at hfail
      simp [retryLoop, hfail, hperm]
    | succ j' =>
      obtain ⟨f, hf, hft⟩ := hprev 0 (Nat.succ_pos _)
      simp only [Nat.add_zero] at hf
      have step : retryLoop transport maxRetries (r + 1) attempt last =
          (let rr := retryLoop transport maxRetries r (attempt + 1) (some f)
           (rr.1, rr.2 + 1)) := by
        simp [retryLoop, hf, hft]
      rw [step]
      have hrec := ih (attempt + 1) j' (some f) (by omega)
        (by rw [show attempt + 1 + j' = attempt + (j' + 1) by omega]; exact hfail)
        (by intro i hi
            obtain ⟨g, hg, hgt⟩ := hprev (i + 1) (by omega)
            exact ⟨g, by rw [show attempt + 1 + i = attempt + (i + 1) by omega]; exact hg, hgt⟩)
      simp [hrec]

/-- Claim C2: if the transport fails with a non-transient provider error at
attempt `j` (after transient failures on all earlier attempts), the client
raises the typed error immediately: exactly `j + 1` transport invocations
are made, regardless of how many retry attempts remain. -/
theorem c2_permanent_error_no_retry
    (transport : Nat → TransportResult) (maxRetries j : Nat) (e : ProviderError)
    (hj : j < maxRetries)
    (hfail : transport j = .failure e) (hperm : e.isTransient = false)
    (hprev : ∀ i < j, ∃ f, transport i = .failure f ∧ f.isTransient = true) :
    make_request_with_retry transport maxRetries =
      (.error ⟨"OpenAI API error: " ++ e.str, some e⟩, j + 1) := by
  unfold make_request_with_retry
  exact retryLoop_permanent transport maxRetries e hperm maxRetries 0 j none hj
    (by simpa using hfail) (by simpa using hprev)

/-- Closed witness for `c2_permanent_error_no_retry`: a permanent error on
the second attempt stops the client after 2 invocations even though
`max_retries = 3`. -/
theorem c2_permanent_error_no_retry_witness :
    make_request_with_retry
      (fun i => match i with
        | 0 => .failure (.rateLimitError "rl")
        | _ => .failure (.otherOpenAIError "bad request")) 3 =
      (.error ⟨"OpenAI API error: " ++ (ProviderError.otherOpenAIError "bad request").str,
        some (.otherOpenAIError "bad request")⟩, 2) :=
  c2_permanent_error_no_retry _ 3 1 (.otherOpenAIError "bad request")
    (by omega) rfl rfl
    (by intro i hi
        interval_cases i
        exact ⟨.rateLimitError "rl", rfl, rfl⟩)

/-! ## ResponseParser: `OpenAIClient.parse_json_response`

`json.loads` is external library code; it is modelled as an arbitrary
decoder `jdec : Text → Option α` (`none` models `json.JSONDecodeError`).
The parser itself is translated literally: direct decode; on failure, if
`"```json"` occurs, slice from `find("```json") + 7` to the next
`find("```", start)` and decode the stripped slice — a failure of that
decode propagates as the raw `json.JSONDecodeError`, `return json.loads(...)`
being inside the `except` block with no further handler; only when no
terminated fenced block is found does the code raise
`OpenAIClientError(f"Failed to parse JSON response: {response[:200]}")`. -/

/-- Errors escaping `parse_json_response`: the raw `json.JSONDecodeError`
from a failed re-decode of a fenced block, or the typed
`OpenAIClientError` with its message text. -/
inductive ParseErr where
  | jsonDecodeError
  | clientError (msg : Text)
deriving DecidableEq, Repr

/-- `OpenAIClient.parse_json_response`, over an arbitrary JSON decoder. -/
def parse_json_response {α : Type} (jdec : Text → Option α) (response : Text) :
    Except ParseErr α :=
  match jdec response with
  | some v => .ok v
  | none =>
    match findSub (lc "```json") response with
    | some p =>
      match findSubFrom (lc "```") response (p + 7) with
      | some e =>
        match jdec (trimT (sliceT response (p + 7) e)) with
        | some v => .ok v
        | none => .error .jsonDecodeError
      | none =>
        .error (.clientError (lc "Failed to parse JSON response: " ++ response.take 200))
    | none =>
      match findSub (lc "```") response with
      | some p =>
        match findSubFrom (lc "```") response (p + 3) with
        | some e =>
          match jdec (trimT (sliceT response (p + 3) e)) with
          | some v => .ok v
          | none => .error .jsonDecodeError
        | none =>
          .error (.clientError (lc "Failed to parse JSON response: " ++ response.take 200))
      | none =>
        .error (.clientError (lc "Failed to parse JSON response: " ++ response.take 200))

/-- Claim C5, counterexample: on the response `"```json\nbad\n```"` the
direct decode fails and the decode of the fenced block content (`"bad"`)
also fails, yet the parser does not raise the typed client error: the raw
decode error escapes `parse_json_response` instead. -/
theorem c5_counterexample :
    (fun _ => (none : Option Unit)) (lc "```json\nbad\n```") = none ∧
    findSub (lc "```json") (lc "```json\nbad\n```") = some 0 ∧
    parse_json_response (fun _ => (none : Option Unit)) (lc "```json\nbad\n```") =
      .error .jsonDecodeError := by
  refine ⟨rfl, by decide, rfl⟩

/-- The branch structure of `parse_json_response` finds no terminated
fenced block: a `"```json"` marker with no later `"```"` (`end == -1`), or
no `"```json"` and a `"```"` marker with no later `"```"`, or no marker at
all.  These are exactly the paths that reach the `raise OpenAIClientError`
line. -/
def noTerminatedFence (response : Text) : Bool :=
  match findSub (lc "```json") response with
  | some p => (findSubFrom (lc "```") response (p + 7)).isNone
  | none =>
    match findSub (lc "```") response with
    | some p => (findSubFrom (lc "```") response (p + 3)).isNone
    | none => true

/-- Claim C5 as amended: when direct decoding fails, the parser raises the
typed client error — whose message appends at most the first 200 code
points of the response — if and only if the branch taken finds no
terminated fenced block (no fence marker at all, or a ```` ```json ```` or
plain ```` ``` ```` marker with no closing `"```"`); when a terminated
fenced block is found (in either branch) but its stripped content also
fails to decode, the raw decode error propagates instead of the typed
error. -/
theorem c5_typed_error_paths {α : Type} (jdec : Text → Option α)
    (response : Text) (hdirect : jdec response = none) :
    (parse_json_response jdec response =
        .error (.clientError (lc "Failed to parse JSON response: " ++ response.take 200)) ↔
      noTerminatedFence response = true) ∧
    (response.take 200).length ≤ 200 ∧
    (∀ p e, findSub (lc "```json") response = some p →
      findSubFrom (lc "```") response (p + 7) = some e →
      jdec (trimT (sliceT response (p + 7) e)) = none →
      parse_json_response jdec response = .error .jsonDecodeError) ∧
    (∀ p e, findSub (lc "```json") response = none →
      findSub (lc "```") response = some p →
      findSubFrom (lc "```") response (p + 3) = some e →
      jdec (trimT (sliceT response (p + 3) e)) = none →
      parse_json_response jdec response = .error .jsonDecodeError) := by
  refine ⟨?_, List.length_take_le 200 response, ?_, ?_⟩
  · unfold parse_json_response noTerminatedFence
    cases h1 : findSub (lc "```json") response with
    | some p =>
      simp only [hdirect, h1]
      cases h2 : findSubFrom (lc "```") response (p + 7) with
      | some e =>
        simp only [h2]
        cases h3 : jdec (trimT (sliceT response (p + 7) e)) with
        | some v => simp
        | none => simp
      | none => simp
    | none =>
      simp only [hdirect, h1]
      cases h2 : findSub (lc "```") response with
      | some p =>
        simp only [h2]
        cases h3 : findSubFrom (lc "```") response (p + 3) with
        | some e =>
          simp only [h3]
          cases h4 : jdec (trimT (sliceT response (p + 3) e)) with
          | some v => simp
          | none => simp
        | none => simp
      | none => simp
  · intro p e h1 h2 h3
    unfold parse_json_response
    simp only [hdirect, h1, h2, h3]
  · intro p e h1 h2 h3 h4
    unfold parse_json_response
    simp only [hdirect, h1, h2, h3, h4]

/-- Closed witness for `c5_typed_error_paths`: a plain non-JSON response
with no fencing satisfies `noTerminatedFence` and yields the typed client
error with the bounded message. -/
theorem c5_typed_error_paths_witness :
    (fun _ => (none : Option Unit)) (lc "hello") = none ∧
    noTerminatedFence (lc "hello") = true ∧
    parse_json_response (fun _ => (none : Option Unit)) (lc "hello") =
      .error (.clientError (lc "Failed to parse JSON response: " ++ (lc "hello").take 200)) := by
  refine ⟨rfl, by decide, ?_⟩
  exact ((c5_typed_error_paths (fun _ => (none : Option Unit)) (lc "hello") rfl).1).mpr
    (by decide)

/-! ## Round-trip of a fenced JSON payload (Claim C6) -/

/-- Wrapping a payload in a ```` ```json ... ``` ```` fenced code block. -/
def wrapFenced (t : Text) : Text := lc "```json\n" ++ t ++ lc "\n```"

theorem findSubAux_shift (pat l : Text) :
    ∀ i, findSubAux pat l i = (findSubAux pat l 0).map (· + i) := by
  induction l with
  | nil =>
    intro i
    unfold findSubAux
    split <;> simp
  | cons c rest ih =>
    intro i
    unfold findSubAux
    split
    · simp
    · rw [ih (i + 1), ih 1, Option.map_map]
      apply congrArg (fun f => Option.map f (findSubAux pat rest 0))
      funext x
      simp only [Function.comp_apply]
      omega


/-- In `t ++ "\n```"`, if `"```"` does not occur in `t`, its first
occurrence is the appended one, just after the newline. -/
theorem findSubAux_ticks :
    ∀ t : Text, findSub (lc "```") t = none →
    ∀ i, findSubAux (lc "```") (t ++ 10 :: lc "```") i = some (i + t.length + 1) := by
  have e3 : lc "```" = [96, 96, 96] := rfl
  rw [e3]
  intro t
  induction t with
  | nil =>
    intro _ i
    simp [findSubAux, isPrefixT]
  | cons c rest ih =>
    intro hno i
    have hsplit : isPrefixT [96, 96, 96] (c :: rest) = false ∧
        findSub [96, 96, 96] rest = none := by
      unfold findSub findSubAux at hno
      split at hno
      · exact absurd hno (by simp)
      · rename_i hp
        refine ⟨by simpa using hp, ?_⟩
        rw [findSubAux_shift [96, 96, 96] rest 1] at hno
        unfold findSub
        exact Option.map_eq_none.mp hno
    match rest with
    | [] =>
      simp [findSubAux, isPrefixT]
    | [b] =>
      simp [findSubAux, isPrefixT]
    | b :: b' :: t'' =>
      have hpre : isPrefixT [96, 96, 96] (c :: (b :: b' :: t'' ++ [10, 96, 96, 96])) = false := by
        have h := hsplit.1
        simp only [isPrefixT] at h ⊢
        exact h
      have hstep : findSubAux [96, 96, 96] ((c :: b :: b' :: t'') ++ [10, 96, 96, 96]) i =
          findSubAux [96, 96, 96] ((b :: b' :: t'') ++ [10, 96, 96, 96]) (i + 1) := by
        rw [List.cons_append]
        simp only [findSubAux]
        rw [hpre]
        simp
      rw [hstep, ih hsplit.2 (i + 1)]
      congr 1
      simp only [List.length_cons]
      omega

theorem dropWhile_cons_space (l : Text) :
    List.dropWhile isSpace (10 :: l) = List.dropWhile isSpace l := by
  rw [List.dropWhile_cons]
  simp [show isSpace 10 = true from rfl]

/-- Stripping absorbs the newlines the fencing adds around the payload:
`("\n" ++ t ++ "\n").strip() == t.strip()`. -/
theorem trimT_nl_absorb (t : Text) : trimT (10 :: (t ++ [10])) = trimT t := by
  unfold trimT
  rw [dropWhile_cons_space, List.dropWhile_append]
  by_cases hd : (t.dropWhile isSpace).isEmpty
  · rw [if_pos hd, List.isEmpty_iff.mp hd]
    rfl
  · rw [if_neg hd, List.reverse_append,
      show ([10] : Text).reverse = [10] from rfl,
      List.singleton_append, dropWhile_cons_space]

/-- Claim C6, counterexample: the payload `{"a": "```"}` is a single JSON
object (the decoder accepts it), but the `"```"` inside its string value is
found as the closing fence of the wrapped response, so the parser re-decodes
the cut fragment `{"a": "` and the decode error escapes: parsing the wrapped
response does not equal parsing the bare payload. -/
theorem c6_counterexample :
    (fun s => if s = lc "\x7b\"a\": \"```\"\x7d" then some 1 else (none : Option Nat))
      (lc "\x7b\"a\": \"```\"\x7d") = some 1 ∧
    parse_json_response
      (fun s => if s = lc "\x7b\"a\": \"```\"\x7d" then some 1 else (none : Option Nat))
      (lc "\x7b\"a\": \"```\"\x7d") = .ok 1 ∧
    parse_json_response
      (fun s => if s = lc "\x7b\"a\": \"```\"\x7d" then some 1 else (none : Option Nat))
      (wrapFenced (lc "\x7b\"a\": \"```\"\x7d")) = .error .jsonDecodeError := by
  refine ⟨by decide, ?_, ?_⟩ <;> rfl

/-- One unfolding step of the scan on an empty text. -/
theorem findSubAux_nil (pat : Text) (i : Nat) :
    findSubAux pat [] i = if isPrefixT pat [] then some i else none := rfl

/-- One unfolding step of the scan on a nonempty text. -/
theorem findSubAux_cons (pat : Text) (c : Nat) (rest : Text) (i : Nat) :
    findSubAux pat (c :: rest) i =
      if isPrefixT pat (c :: rest) then some i else findSubAux pat rest (i + 1) := rfl

/-- A pattern occurring at the very start is found at index 0. -/
theorem findSub_of_isPrefixT {pat t : Text} (h : isPrefixT pat t = true) :
    findSub pat t = some 0 := by
  cases t with
  | nil =>
    unfold findSub
    rw [findSubAux_nil, h]
    simp
  | cons c rest =>
    unfold findSub
    rw [findSubAux_cons, h]
    simp

/-- Claim C6 as amended: for a payload `t` the decoder accepts — whose
stripped form it maps to the same value (`json.loads` ignores surrounding
whitespace) — which does not contain `"```"` and is not itself decodable
once fenced (a backtick cannot begin a JSON document), parsing the
```` ```json ... ``` ````-wrapped response yields the same result as
parsing `t` directly. -/
theorem c6_fenced_roundtrip {α : Type} (jdec : Text → Option α) (t : Text) (v : α)
    (hv : jdec t = some v)
    (hstrip : jdec (trimT t) = some v)
    (hwrap : jdec (wrapFenced t) = none)
    (hno : findSub (lc "```") t = none) :
    parse_json_response jdec (wrapFenced t) = parse_json_response jdec t ∧
    parse_json_response jdec t = .ok v := by
  have hparse : parse_json_response jdec t = .ok v := by
    unfold parse_json_response
    rw [hv]
  refine ⟨?_, hparse⟩
  rw [hparse]
  have hfind7 : findSub (lc "```json") (wrapFenced t) = some 0 := by
    apply findSub_of_isPrefixT
    unfold wrapFenced
    rw [show lc "```json\n" = 96 :: 96 :: 96 :: 106 :: 115 :: 111 :: 110 :: 10 :: ([] : Text)
          from rfl,
        show lc "```json" = [96, 96, 96, 106, 115, 111, 110] from rfl]
    simp [isPrefixT]
  have hdrop : (wrapFenced t).drop 7 = 10 :: (t ++ lc "\n```") := by
    unfold wrapFenced
    rw [show lc "```json\n" = 96 :: 96 :: 96 :: 106 :: 115 :: 111 :: 110 :: 10 :: ([] : Text)
          from rfl]
    rfl
  have h3 : findSubFrom (lc "```") (wrapFenced t) 7 = some (t.length + 9) := by
    unfold findSubFrom
    rw [hdrop]
    have step : findSub (lc "```") (10 :: (t ++ lc "\n```")) =
        findSubAux (lc "```") (t ++ lc "\n```") 1 := by
      unfold findSub
      rw [findSubAux_cons, show isPrefixT (lc "```") (10 :: (t ++ lc "\n```")) = false from rfl]
      simp
    rw [step, show lc "\n```" = 10 :: lc "```" from rfl, findSubAux_ticks t hno 1]
    show some (1 + t.length + 1 + 7) = some (t.length + 9)
    congr 1
    omega
  have hslice : sliceT (wrapFenced t) 7 (t.length + 9) = 10 :: (t ++ [10]) := by
    unfold sliceT
    rw [hdrop, show t.length + 9 - 7 = t.length + 1 + 1 from by omega,
      List.take_succ_cons, List.take_append_eq_append_take,
      List.take_of_length_le (by omega),
      show t.length + 1 - t.length = 1 from by omega]
    rfl
  have h4 : trimT (sliceT (wrapFenced t) 7 (t.length + 9)) = trimT t := by
    rw [hslice]
    exact trimT_nl_absorb t
  unfold parse_json_response
  simp only [hwrap, hfind7, Nat.zero_add, h3, h4, hstrip]

/-- Closed witness for `c6_fenced_roundtrip` at the whitespace-padded
payload `"7\n"` with a decoder accepting that payload and its stripped
form. -/
theorem c6_fenced_roundtrip_witness :
    parse_json_response
      (fun s => if s = lc "7\n" then some 42 else if s = lc "7" then some 42
        else (none : Option Nat))
      (wrapFenced (lc "7\n")) =
    parse_json_response
      (fun s => if s = lc "7\n" then some 42 else if s = lc "7" then some 42
        else (none : Option Nat)) (lc "7\n") ∧
    parse_json_response
      (fun s => if s = lc "7\n" then some 42 else if s = lc "7" then some 42
        else (none : Option Nat)) (lc "7\n") = .ok 42 :=
  c6_fenced_roundtrip _ (lc "7\n") 42 (by decide) (by decide) (by decide) (by decide)

/-! ## TailoringOrchestrator: `ResumeTailorService.tailor_resume` post-processing

The section of `resume_tailor.py` after `parse_json_response` builds the
response from the parsed dict.  Dict lookups `d.get(key, default)` are
modelled by `Option` fields (`none` = key absent) with `Option.getD`;
`result.get("tailored_resume", {})` defaults to a dict with no keys.  Only
the `Resume` fields that this code reads (`summary`, `skills`, plus `name`
which is only logged) are modelled.  Numeric `fit_score` values are
modelled as `Int`; a non-integral model value would be rejected by pydantic
validation and is outside this claim ("every model response the
orchestrator accepts"). -/

/-- The input resume fields read by the post-processing code. -/
structure Resume where
  name : String
  summary : String
  skills : List String
deriving DecidableEq, Repr

/-- One entry of `tailored_data["experience"]` as a dict. -/
structure ExpData where
  title : Option String
  company : Option String
  start_date : Option String
  end_date : Option String
  description : Option String
  highlights : Option (List String)
deriving DecidableEq, Repr

/-- `TailoredExperience` (pydantic model). -/
structure TailoredExperience where
  title : String
  company : String
  start_date : String
  end_date : Option String
  description : String
  highlights : List String
deriving DecidableEq, Repr

/-- The `TailoredExperience(...)` construction with its `.get` defaults. -/
def buildExperience (e : ExpData) : TailoredExperience :=
  { title := e.title.getD ""
    company := e.company.getD ""
    start_date := e.start_date.getD ""
    end_date := e.end_date
    description := e.description.getD ""
    highlights := e.highlights.getD [] }

/-- The keys `tailor_resume` reads from `result["tailored_resume"]`. -/
structure TailoredData where
  summary : Option String
  experience : Option (List ExpData)
  skills_highlighted : Option (List String)
  keywords_matched : Option (List String)
  fit_score : Option Int
deriving DecidableEq, Repr

/-- `result.get("tailored_resume", {})` default: a dict with no keys. -/
def emptyTailoredData : TailoredData :=
  { summary := none, experience := none, skills_highlighted := none
    keywords_matched := none, fit_score := none }

/-- The top-level keys of the parsed model response. -/
structure ModelResult where
  tailored_resume : Option TailoredData
  suggestions : Option (List String)
deriving DecidableEq, Repr

/-- `TailoredResume` (pydantic model). -/
structure TailoredResume where
  summary : String
  experience : List TailoredExperience
  skills_highlighted : List String
  keywords_matched : List String
  fit_score : Int
deriving DecidableEq, Repr

/-- `TailorResumeResponse` (pydantic model). -/
structure TailorResumeResponse where
  tailored_resume : TailoredResume
  suggestions : List String
  tokens_used : Nat
  model : String
deriving DecidableEq, Repr

/-- The post-parse normalisation of `ResumeTailorService.tailor_resume`
(lines building `tailored_experience`, clamping `fit_score`, and assembling
`TailoredResume` / `TailorResumeResponse`). -/
def tailor_postprocess (resume : Resume) (result : ModelResult)
    (tokens_used : Nat) (options_model : String) : TailorResumeResponse :=
  let tailored_data := result.tailored_resume.getD emptyTailoredData
  let suggestions := result.suggestions.getD []
  let tailored_experience := (tailored_data.experience.getD []).map buildExperience
  let fit_score := max 0 (min 100 (tailored_data.fit_score.getD 50))
  { tailored_resume :=
      { summary := tailored_data.summary.getD resume.summary
        experience := tailored_experience
        skills_highlighted := tailored_data.skills_highlighted.getD (resume.skills.take 5)
        keywords_matched := tailored_data.keywords_matched.getD []
        fit_score := fit_score }
    suggestions := suggestions
    tokens_used := tokens_used
    model := options_model }

/-- Claim C3: every accepted model response yields a result with
`fit_score` clamped into `[0, 100]` (a raw 150 becomes 100, a raw −10
becomes 0); an omitted `skills_highlighted` defaults to the first 5 resume
skills; an omitted `summary` defaults to the original resume summary. -/
theorem c3_postprocess_invariants (resume : Resume) (result : ModelResult)
    (tokens : Nat) (m : String)
    (hsk : (result.tailored_resume.getD emptyTailoredData).skills_highlighted = none)
    (hsum : (result.tailored_resume.getD emptyTailoredData).summary = none) :
    (0 ≤ (tailor_postprocess resume result tokens m).tailored_resume.fit_score ∧
      (tailor_postprocess resume result tokens m).tailored_resume.fit_score ≤ 100) ∧
    ((result.tailored_resume.getD emptyTailoredData).fit_score = some 150 →
      (tailor_postprocess resume result tokens m).tailored_resume.fit_score = 100) ∧
    ((result.tailored_resume.getD emptyTailoredData).fit_score = some (-10) →
      (tailor_postprocess resume result tokens m).tailored_resume.fit_score = 0) ∧
    (tailor_postprocess resume result tokens m).tailored_resume.skills_highlighted =
      resume.skills.take 5 ∧
    (tailor_postprocess resume result tokens m).tailored_resume.summary = resume.summary := by
  unfold tailor_postprocess
  refine ⟨⟨?_, ?_⟩, ?_, ?_, ?_, ?_⟩
  · simp only []
    omega
  · simp only []
    omega
  · intro h
    simp only [h]
    rfl
  · intro h
    simp only [h]
    rfl
  · simp only [hsk]
    rfl
  · simp only [hsum]
    rfl

/-- Closed witness for `c3_postprocess_invariants`: a model response whose
`tailored_resume` has a raw `fit_score` of 150 and omits both
`skills_highlighted` and `summary`. -/
theorem c3_postprocess_invariants_witness :
    (0 ≤ (tailor_postprocess ⟨"Ada", "orig summary", ["a", "b", "c", "d", "e", "f"]⟩
        ⟨some { emptyTailoredData with fit_score := some 150 }, none⟩ 9 "gpt-4"
        ).tailored_resume.fit_score ∧
      (tailor_postprocess ⟨"Ada", "orig summary", ["a", "b", "c", "d", "e", "f"]⟩
        ⟨some { emptyTailoredData with fit_score := some 150 }, none⟩ 9 "gpt-4"
        ).tailored_resume.fit_score ≤ 100) ∧
    (tailor_postprocess ⟨"Ada", "orig summary", ["a", "b", "c", "d", "e", "f"]⟩
        ⟨some { emptyTailoredData with fit_score := some 150 }, none⟩ 9 "gpt-4"
        ).tailored_resume.fit_score = 100 ∧
    (tailor_postprocess ⟨"Ada", "orig summary", ["a", "b", "c", "d", "e", "f"]⟩
        ⟨some { emptyTailoredData with fit_score := some 150 }, none⟩ 9 "gpt-4"
        ).tailored_resume.skills_highlighted = ["a", "b", "c", "d", "e"] ∧
    (tailor_postprocess ⟨"Ada", "orig summary", ["a", "b", "c", "d", "e", "f"]⟩
        ⟨some { emptyTailoredData with fit_score := some 150 }, none⟩ 9 "gpt-4"
        ).tailored_resume.summary = "orig summary" := by
  have h := c3_postprocess_invariants
    ⟨"Ada", "orig summary", ["a", "b", "c", "d", "e", "f"]⟩
    ⟨some { emptyTailoredData with fit_score := some 150 }, none⟩ 9 "gpt-4" rfl rfl
  exact ⟨h.1, h.2.1 rfl, by rw [h.2.2.2.1]; rfl, h.2.2.2.2⟩

/-- Claim C10: when the model's `tailored_resume` object has no
`fit_score` key, the returned `fit_score` is exactly 50 — the `.get`
default applied before clamping; the spec does not state this value. -/
theorem c10_default_fit_score (resume : Resume) (result : ModelResult)
    (tokens : Nat) (m : String)
    (hfs : (result.tailored_resume.getD emptyTailoredData).fit_score = none) :
    (tailor_postprocess resume result tokens m).tailored_resume.fit_score = 50 := by
  unfold tailor_postprocess
  simp only [hfs]
  rfl

/-- Closed witness for `c10_default_fit_score`. -/
theorem c10_default_fit_score_witness :
    (tailor_postprocess ⟨"Ada", "s", ["x"]⟩ ⟨none, none⟩ 0 "gpt-4"
      ).tailored_resume.fit_score = 50 :=
  c10_default_fit_score ⟨"Ada", "s", ["x"]⟩ ⟨none, none⟩ 0 "gpt-4" rfl

/-! ## QueueWorker message callbacks (Claim C4)

Two consumers exist in the repository.

`files/services/llm-service/app/worker.py` (`callback`): the body is decoded
with `json.loads(body)` *outside* any `try` block, so a decode failure
propagates out of the callback and the message is neither acknowledged nor
rejected.  The whole processing block — pydantic validation, result
construction, and `basic_publish` — sits in `try: ... except Exception:
print(...)`, and `ch.basic_ack` runs unconditionally after the
`try`/`except`: a message whose processing fails is still acknowledged and
never requeued.

`services/agent-monitoring-service/app/worker.py`
(`MonitoringService.process_status_log`): `json.JSONDecodeError` is caught
and answered with `basic_nack(requeue=False)`; any other exception with
`basic_nack(requeue=True)`; `basic_ack` runs only after processing
succeeds.

The broker interaction of one message is modelled by the final
acknowledgement outcome plus the list of messages published to the output
queue.  Decoding is modelled by an `Option` argument (`none` =
`json.JSONDecodeError`), processing/persistence by an `Except`-valued
function. -/

/-- How the callback left the message with the broker. -/
inductive AckOutcome where
  | acked
  | nackRequeue
  | nackDiscard
  | uncaught
deriving DecidableEq, Repr

/-- `callback` of the LLM worker: `run` is the `try` body (validation,
result construction, publish); its `.ok` value is the message published to
the output queue. -/
def llm_callback {π ω : Type} (decoded : Option π) (run : π → Except String ω) :
    AckOutcome × List ω :=
  match decoded with
  | none => (.uncaught, [])
  | some payload =>
    match run payload with
    | .ok out => (.acked, [out])
    | .error _ => (.acked, [])

/-- `MonitoringService.process_status_log`: `dbWrite` is the guarded
database block (this worker publishes nothing). -/
def process_status_log {δ : Type} (decoded : Option δ)
    (dbWrite : δ → Except String Unit) : AckOutcome :=
  match decoded with
  | none => .nackDiscard
  | some d =>
    match dbWrite d with
    | .ok _ => .acked
    | .error _ => .nackRequeue

/-- Claim C4, behaviour at the failing inputs: the LLM worker acknowledges
(does not requeue) a validly-decoded message whose processing raises, and
lets a JSON decode failure escape the callback so the message is neither
acknowledged nor discarded; in both cases nothing is published.  The
monitoring worker, in contrast, implements the claimed state machine on
the same inputs. -/
theorem c4_llm_worker_acks_failures :
    llm_callback (some 1) (fun _ => (.error "pydantic ValidationError" : Except String Nat)) =
      (.acked, []) ∧
    llm_callback (none : Option Nat) (fun _ => (.error "x" : Except String Nat)) =
      (.uncaught, []) ∧
    process_status_log (none : Option Nat) (fun _ => .ok ()) = .nackDiscard ∧
    process_status_log (some 1) (fun _ => (.error "db down" : Except String Unit)) =
      .nackRequeue ∧
    process_status_log (some 1) (fun _ => .ok ()) = .acked :=
  ⟨rfl, rfl, rfl, rfl, rfl⟩

/-! ## Scoring engine: `src/processing.py`

`extract_skills_from_resume` uses
`re.search(r"##\s*SKILLS\s*\n(.*?)(?=\n##|$)", text, re.DOTALL | re.IGNORECASE)`
and `re.findall(r"-\s*(.*)", section)`; `score_jobs` builds
`r'\b(' + '|'.join(re.escape(skill.strip()) for skill in skills) + r')\b'`
and `calculate_score` counts `set(re.findall(pattern, description.lower(),
re.IGNORECASE))`.  The regular expressions are hand-compiled here:

* the alternation of escaped literals is a left-to-right scan that, at each
  position, tries the alternatives in their listed order and takes the
  first whose full match (both `\b`s included) succeeds, then resumes after
  the match (`re.findall` collects non-overlapping matches);
* `\b` holds between a word and a non-word position (`\w` = ASCII
  alphanumerics and underscore; string ends count as non-word);
* greedy `\s*` runs are maximal (no following piece can start with
  whitespace), and the `\n` of `\s*\n` is the last newline of the maximal
  run; the lazy `(.*?)` with lookahead `(?=\n##|$)` stops at the first
  position where `"\n##"` starts or `$` holds (`$` without `re.MULTILINE`:
  end of string or just before a terminal newline);
* `(.*)` without `re.DOTALL` captures up to the next newline. -/

/-- `\w` at position `i` (out of range counts as non-word). -/
def wordAt (t : Text) (i : Nat) : Bool :=
  match t.get? i with
  | some c => isWord c
  | none => false

/-- `\w` at the position left of `i`. -/
def prevWordAt (t : Text) (i : Nat) : Bool :=
  if i = 0 then false else wordAt t (i - 1)

/-- `\b` at position `i`. -/
def boundaryAt (t : Text) (i : Nat) : Bool := prevWordAt t i != wordAt t i

/-- Case-insensitive match of the literal `s` against the start of `u`
(`re.IGNORECASE`). -/
def litMatch : Text → Text → Bool
  | [], _ => true
  | _ :: _, [] => false
  | a :: s, b :: u => (lowerN a == lowerN b) && litMatch s u

/-- Full match of one escaped alternative of `\b(...)\b` at position `i`. -/
def matchAt (s t : Text) (i : Nat) : Bool :=
  boundaryAt t i && litMatch s (t.drop i) && boundaryAt t (i + s.length)

/-- The alternation: alternatives are tried in listed order, first full
match wins. -/
def firstAlt (skills : List Text) (t : Text) (i : Nat) : Option Text :=
  match skills with
  | [] => none
  | s :: rest => if matchAt s t i then some s else firstAlt rest t i

/-- `re.findall` scan for the alternation pattern: leftmost,
non-overlapping matches; the matched text slice is recorded; a zero-width
match advances the scan by one.  `fuel` bounds the recursion —
`t.length + 1` is enough, as every step advances `i`. -/
def scanAux (skills : List Text) (t : Text) : Nat → Nat → List Text
  | _, 0 => []
  | i, fuel + 1 =>
    match firstAlt skills t i with
    | some s =>
      (t.drop i).take s.length :: scanAux skills t (i + max 1 s.length) fuel
    | none =>
      if i < t.length then scanAux skills t (i + 1) fuel else []

/-- `calculate_score` (inner function of `score_jobs`): lowercase the
description, scan with the pattern built from the stripped skills, count
distinct matches; a non-string description (`none`) scores 0. -/
def calculate_score (skills : List Text) (description : Option Text) : Nat :=
  match description with
  | none => 0
  | some d =>
    let t := lowerT d
    ((scanAux (skills.map trimT) t 0 (t.length + 1)).dedup).length

/-- Length of the maximal leading whitespace run (`\s*`, greedy). -/
def wsRun (t : Text) : Nat := (t.takeWhile isSpace).length

/-- Index (within `run`) of its last newline. -/
def lastNewline (run : Text) : Option Nat :=
  ((List.range run.length).filter (fun i => run.get? i = some 10)).getLast?

/-- Match of `##\s*SKILLS\s*\n` at position `l`; returns the index where
the capture group starts (just after the matched newline), or `none` if the
header pattern does not match at `l`. -/
def headerContentStart (t : Text) (l : Nat) : Option Nat :=
  if isPrefixT (lc "##") (t.drop l) then
    let j := l + 2 + wsRun (t.drop (l + 2))
    if litMatch (lc "skills") (t.drop j) then
      let k := j + 6
      match lastNewline ((t.drop k).takeWhile isSpace) with
      | some p => some (k + p + 1)
      | none => none
    else none
  else none

/-- `re.search`: leftmost position where the whole header matches; yields
the capture start. -/
def findSkillsHeader (t : Text) : Option Nat :=
  (List.range (t.length + 1)).findSome? (fun l => headerContentStart t l)

/-- Python `$` without `re.MULTILINE`. -/
def dollarAt (t : Text) (p : Nat) : Bool :=
  p == t.length || (p + 1 == t.length && t.get? p == some 10)

/-- End of the lazy capture `(.*?)(?=\n##|$)`: first position at or after
`start` where the lookahead holds. -/
def groupEnd (t : Text) (start : Nat) : Nat :=
  ((List.range (t.length + 1)).findSome? (fun p =>
    if start ≤ p ∧ (isPrefixT (lc "\n##") (t.drop p) = true ∨ dollarAt t p = true)
    then some p else none)).getD t.length

/-- `re.findall(r"-\s*(.*)", content)`: at each `'-'` (code 45), skip the
greedy whitespace run (newlines included), capture to the end of that line,
resume after the capture. -/
def bulletsAux : Text → Nat → List Text
  | _, 0 => []
  | [], _ => []
  | c :: rest, fuel + 1 =>
    if c = 45 then
      let after := rest.dropWhile isSpace
      let cap := after.takeWhile (fun x => x ≠ 10)
      cap :: bulletsAux (after.drop cap.length) fuel
    else bulletsAux rest fuel

/-- All bullet captures of a skills section. -/
def bullets (content : Text) : List Text := bulletsAux content (content.length + 1)

/-- Python `str.split(',')`. -/
def splitComma : Text → List Text
  | [] => [[]]
  | c :: rest =>
    match splitComma rest with
    | [] => [[c]]
    | h :: tl => if c = 44 then [] :: h :: tl else (c :: h) :: tl

/-- `extract_skills_from_resume` of `src/processing.py`. -/
def extract_skills_from_resume (t : Text) : List Text :=
  match findSkillsHeader t with
  | none => []
  | some start =>
    let content := sliceT t start (groupEnd t start)
    let skills := (bullets content).map (fun b => lowerT (trimT b))
    let final := skills.flatMap (fun sk => (splitComma sk).map trimT)
    final.filter (fun s => decide (s ≠ []))

/-- One DataFrame row: the index (unique per run) and the `description`
column (`none` models a non-string entry). -/
structure JobRow where
  jobId : Nat
  description : Option Text
deriving DecidableEq, Repr

/-- Stable ascending insertion by score. -/
def insertAsc (x : JobRow × Nat) : List (JobRow × Nat) → List (JobRow × Nat)
  | [] => [x]
  | y :: ys => if x.2 ≤ y.2 then x :: y :: ys else y :: insertAsc x ys

/-- Stable ascending sort by score (insertion sort). -/
def sortAscScore : List (JobRow × Nat) → List (JobRow × Nat)
  | [] => []
  | x :: xs => insertAsc x (sortAscScore xs)

/-- pandas `DataFrame.sort_values(by='score', ascending=False)`: for
`ascending=False`, `nargsort` first reverses the key values and the row
indices (`non_nans = non_nans[::-1]`, `non_nan_idx = non_nan_idx[::-1]`),
argsorts the reversed keys ascending, and finally reverses the resulting
indexer (`indexer = indexer[::-1]`).  numpy's argsort is modelled as
stable, which is exact at the list sizes considered here (its quicksort
falls back to insertion sort below 16 elements); with a stable kernel the
double reversal makes the descending sort stable as well. -/
def sort_values_desc (rows : List (JobRow × Nat)) : List (JobRow × Nat) :=
  (sortAscScore rows.reverse).reverse

/-- `score_jobs` of `src/processing.py`. -/
def score_jobs (jobs : List JobRow) (resume_text : Text) : List (JobRow × Nat) :=
  if jobs.isEmpty then []
  else
    let skills := extract_skills_from_resume resume_text
    if skills.isEmpty then jobs.map (fun j => (j, 0))
    else sort_values_desc (jobs.map (fun j => (j, calculate_score skills j.description)))

/-! ## Claim C7: ordering of `score_jobs` output -/

theorem mem_insertAsc {x y : JobRow × Nat} {l : List (JobRow × Nat)} :
    y ∈ insertAsc x l ↔ y = x ∨ y ∈ l := by
  induction l with
  | nil => simp [insertAsc]
  | cons z zs ih =>
    unfold insertAsc
    split
    · simp
    · simp only [List.mem_cons, ih]
      tauto

theorem pairwise_insertAsc {x : JobRow × Nat} {l : List (JobRow × Nat)}
    (h : l.Pairwise (fun a b => a.2 ≤ b.2)) :
    (insertAsc x l).Pairwise (fun a b => a.2 ≤ b.2) := by
  induction l with
  | nil => simp [insertAsc]
  | cons y ys ih =>
    rw [List.pairwise_cons] at h
    unfold insertAsc
    split
    · rename_i hxy
      rw [List.pairwise_cons]
      refine ⟨?_, List.pairwise_cons.mpr h⟩
      intro z hz
      rcases List.mem_cons.mp hz with rfl | hz'
      · exact hxy
      · exact le_trans hxy (h.1 z hz')
    · rename_i hxy
      rw [List.pairwise_cons]
      refine ⟨?_, ih h.2⟩
      intro z hz
      rcases mem_insertAsc.mp hz with rfl | hz'
      · omega
      · exact h.1 z hz'

theorem pairwise_sortAscScore (l : List (JobRow × Nat)) :
    (sortAscScore l).Pairwise (fun a b => a.2 ≤ b.2) := by
  induction l with
  | nil => simp [sortAscScore]
  | cons x xs ih => exact pairwise_insertAsc ih

theorem filter_insertAsc (n : Nat) (x : JobRow × Nat) (l : List (JobRow × Nat)) :
    (insertAsc x l).filter (fun r => r.2 == n) =
      if x.2 == n then x :: l.filter (fun r => r.2 == n)
      else l.filter (fun r => r.2 == n) := by
  induction l with
  | nil =>
    unfold insertAsc
    rw [List.filter_cons, List.filter_nil]
  | cons y ys ih =>
    unfold insertAsc
    split
    · rw [List.filter_cons]
    · rename_i hxy
      rw [List.filter_cons, List.filter_cons, ih]
      by_cases hx : x.2 = n
      · have hy : (y.2 == n) = false := by
          simp only [beq_eq_false_iff_ne]
          omega
        simp [hx, hy]
      · simp [show (x.2 == n) = false from by simpa using hx]

theorem filter_sortAscScore (n : Nat) (l : List (JobRow × Nat)) :
    (sortAscScore l).filter (fun r => r.2 == n) = l.filter (fun r => r.2 == n) := by
  induction l with
  | nil => rfl
  | cons x xs ih =>
    show (insertAsc x (sortAscScore xs)).filter _ = _
    rw [filter_insertAsc, ih, List.filter_cons]

theorem pairwise_map_zero (jobs : List JobRow) :
    (jobs.map (fun j => (j, 0))).Pairwise
      (fun a b : JobRow × Nat => b.2 ≤ a.2) := by
  induction jobs with
  | nil => simp
  | cons j js ih =>
    rw [List.map_cons, List.pairwise_cons]
    refine ⟨?_, ih⟩
    intro b hb
    obtain ⟨j', _, rfl⟩ := List.mem_map.mp hb
    simp

theorem scanAux_nil_skills (t : Text) : ∀ fuel i, scanAux [] t i fuel = [] := by
  intro fuel
  induction fuel with
  | zero =>
    intro i
    rfl
  | succ fuel ih =>
    intro i
    show (if i < t.length then scanAux [] t (i + 1) fuel else []) = []
    split
    · exact ih (i + 1)
    · rfl

theorem calculate_score_nil (d : Option Text) : calculate_score [] d = 0 := by
  cases d with
  | none => rfl
  | some t =>
    show ((scanAux (([] : List Text).map trimT) (lowerT t) 0
      ((lowerT t).length + 1)).dedup).length = 0
    rw [show ([] : List Text).map trimT = [] from rfl, scanAux_nil_skills]
    rfl

/-- Claim C7: the scorer's output is sorted in descending order of score,
and the tie-break is stable: within every score class the output preserves
the original input order.  (pandas reverses both the key column and the
indexer around a stable ascending argsort, so the descending sort is
stable with a stable kernel.) -/
theorem c7_sorted_desc_stable_ties (jobs : List JobRow) (resume_text : Text) :
    (score_jobs jobs resume_text).Pairwise (fun a b => b.2 ≤ a.2) ∧
    ∀ n : Nat,
      (score_jobs jobs resume_text).filter (fun r => r.2 == n) =
      (jobs.map (fun j =>
          (j, calculate_score (extract_skills_from_resume resume_text) j.description))
        ).filter (fun r => r.2 == n) := by
  unfold score_jobs
  by_cases hj : jobs.isEmpty
  · simp only [hj, if_true]
    constructor
    · simp
    · intro n
      rw [List.isEmpty_iff.mp hj]
      simp
  · simp only [hj, if_false, Bool.false_eq_true]
    by_cases hs : (extract_skills_from_resume resume_text).isEmpty
    · simp only [hs, if_true]
      constructor
      · exact pairwise_map_zero jobs
      · intro n
        have hmap : jobs.map (fun j =>
            (j, calculate_score (extract_skills_from_resume resume_text) j.description)) =
            jobs.map (fun j => (j, 0)) := by
          apply List.map_congr_left
          intro j _
          rw [List.isEmpty_iff.mp hs, calculate_score_nil]
        rw [hmap]
    · simp only [hs, if_false, Bool.false_eq_true]
      constructor
      · unfold sort_values_desc
        rw [List.pairwise_reverse]
        exact pairwise_sortAscScore _
      · intro n
        unfold sort_values_desc
        rw [List.filter_reverse, filter_sortAscScore, List.filter_reverse,
          List.reverse_reverse]

/-- Closed witness for `c7_sorted_desc_stable_ties`: two equal-score jobs
come back in their original input order. -/
theorem c7_sorted_desc_stable_ties_witness :
    (score_jobs [⟨1, some (lc "python dev")⟩, ⟨2, some (lc "python eng")⟩]
        (lc "## SKILLS\n- python")).Pairwise (fun a b => b.2 ≤ a.2) ∧
    (score_jobs [⟨1, some (lc "python dev")⟩, ⟨2, some (lc "python eng")⟩]
        (lc "## SKILLS\n- python")).filter (fun r => r.2 == 1) =
      (([⟨1, some (lc "python dev")⟩, ⟨2, some (lc "python eng")⟩].map (fun j =>
          (j, calculate_score (extract_skills_from_resume (lc "## SKILLS\n- python"))
            j.description))).filter (fun r => r.2 == 1)) :=
  ⟨(c7_sorted_desc_stable_ties _ _).1, (c7_sorted_desc_stable_ties _ _).2 1⟩

/-! ## Claim C9: shape of the extracted skill tokens -/

theorem splitComma_ne_nil (l : Text) : splitComma l ≠ [] := by
  cases l with
  | nil => simp [splitComma]
  | cons c rest =>
    cases hsc : splitComma rest with
    | nil =>
      unfold splitComma
      rw [hsc]
      simp
    | cons h tl =>
      rw [show splitComma (c :: rest) = if c = 44 then [] :: h :: tl else (c :: h) :: tl from by
            unfold splitComma
            rw [hsc]]
      split <;> simp

theorem mem_splitComma_mem {c : Nat} {x l : Text}
    (hx : x ∈ splitComma l) (hc : c ∈ x) : c ∈ l := by
  induction l generalizing x with
  | nil =>
    simp [splitComma] at hx
    subst hx
    cases hc
  | cons a rest ih =>
    cases hsc : splitComma rest with
    | nil => exact absurd hsc (splitComma_ne_nil rest)
    | cons h tl =>
      rw [show splitComma (a :: rest) = if a = 44 then [] :: h :: tl else (a :: h) :: tl from by
            unfold splitComma
            rw [hsc]] at hx
      by_cases ha : a = 44
      · rw [if_pos ha] at hx
        rcases List.mem_cons.mp hx with rfl | hx'
        · cases hc
        · exact List.mem_cons_of_mem a (ih (by rw [hsc]; exact hx') hc)
      · rw [if_neg ha] at hx
        rcases List.mem_cons.mp hx with rfl | hx'
        · rcases List.mem_cons.mp hc with rfl | hc'
          · exact List.mem_cons_self _ _
          · exact List.mem_cons_of_mem a
              (ih (by rw [hsc]; exact List.mem_cons_self h tl) hc')
        · exact List.mem_cons_of_mem a
            (ih (by rw [hsc]; exact List.mem_cons_of_mem h hx') hc)

theorem mem_trimT {c : Nat} {l : Text} (h : c ∈ trimT l) : c ∈ l := by
  unfold trimT at h
  rw [List.mem_reverse] at h
  have h1 := (List.dropWhile_sublist isSpace).subset h
  rw [List.mem_reverse] at h1
  exact (List.dropWhile_sublist isSpace).subset h1

/-- Claim C9 as amended: with no skills section the extractor returns `[]`
and the scorer then gives every job score 0 without raising; every token a
present skills section yields is lowercase and whitespace-trimmed — but the
list may contain duplicates (the code never deduplicates). -/
theorem c9_extract_normalized (t : Text) :
    (findSkillsHeader t = none →
      extract_skills_from_resume t = [] ∧
      ∀ jobs : List JobRow, score_jobs jobs t = jobs.map (fun j => (j, 0))) ∧
    ∀ x ∈ extract_skills_from_resume t, trimT x = x ∧ ∀ c ∈ x, lowerN c = c := by
  constructor
  · intro hh
    have hext : extract_skills_from_resume t = [] := by
      unfold extract_skills_from_resume
      rw [hh]
    refine ⟨hext, ?_⟩
    intro jobs
    unfold score_jobs
    by_cases hj : jobs.isEmpty = true
    · rw [if_pos hj, List.isEmpty_iff.mp hj]
      rfl
    · rw [if_neg hj]
      simp [hext]
  · intro x hx
    unfold extract_skills_from_resume at hx
    cases hh : findSkillsHeader t with
    | none =>
      rw [hh] at hx
      cases hx
    | some start =>
      rw [hh] at hx
      simp only [List.mem_filter, List.mem_flatMap, List.mem_map] at hx
      obtain ⟨⟨sk, ⟨⟨b, hb, rfl⟩, piece, hpiece, rfl⟩⟩, _⟩ := hx
      refine ⟨trimT_idem piece, ?_⟩
      intro c hc
      have hcp : c ∈ lowerT (trimT b) := mem_splitComma_mem hpiece (mem_trimT hc)
      obtain ⟨d, _, rfl⟩ := List.mem_map.mp hcp
      exact lowerN_idem d

/-- Claim C9, counterexample to distinctness: a skills section listing the
same skill twice yields a list with a duplicate token. -/
theorem c9_counterexample :
    extract_skills_from_resume (lc "## SKILLS\n- python\n- python") =
      [lc "python", lc "python"] ∧
    ¬ (extract_skills_from_resume (lc "## SKILLS\n- python\n- python")).Nodup := by
  constructor
  · rfl
  · decide

/-- Closed witness for `c9_extract_normalized`. -/
theorem c9_extract_normalized_witness :
    extract_skills_from_resume (lc "nothing here") = [] ∧
    score_jobs [⟨1, some (lc "python dev")⟩] (lc "nothing here") =
      [(⟨1, some (lc "python dev")⟩, 0)] ∧
    (trimT (lc "aws") = lc "aws" ∧ ∀ c ∈ lc "aws", lowerN c = c) := by
  have h1 := (c9_extract_normalized (lc "nothing here")).1 (by decide)
  have h2 := (c9_extract_normalized (lc "## SKILLS\n- Python, AWS")).2
    (lc "aws") (by decide)
  exact ⟨h1.1, h1.2 [⟨1, some (lc "python dev")⟩], h2⟩

/-! ## Claim C8: what `calculate_score` counts -/

/-- Claim-side notion: `s` has a whole-word, case-insensitive match
somewhere in `t`. -/
def matchesSomewhere (s t : Text) : Bool :=
  (List.range (t.length + 1)).any (fun i => matchAt s t i)

/-- Claim-side count: the number of distinct skills that match the
description at least once. -/
def distinctMatchCount (skills : List Text) (t : Text) : Nat :=
  ((skills.filter (fun s => matchesSomewhere s t)).dedup).length

theorem litMatch_length {s u : Text} (h : litMatch s u = true) :
    s.length ≤ u.length := by
  induction s generalizing u with
  | nil => simp
  | cons a s ih =>
    cases u with
    | nil => simp [litMatch] at h
    | cons b u' =>
      simp only [litMatch, Bool.and_eq_true] at h
      simpa using ih h.2

theorem litMatch_map_take {s u : Text} (h : litMatch s u = true) :
    (u.take s.length).map lowerN = s.map lowerN := by
  induction s generalizing u with
  | nil => simp
  | cons a s ih =>
    cases u with
    | nil => simp [litMatch] at h
    | cons b u' =>
      simp only [litMatch, Bool.and_eq_true, beq_iff_eq] at h
      simp only [List.length_cons, List.take_succ_cons, List.map_cons]
      rw [ih h.2, h.1]

theorem map_lowerN_id {l : Text} (h : ∀ c ∈ l, lowerN c = c) : lowerT l = l := by
  unfold lowerT
  induction l with
  | nil => rfl
  | cons a l ih =>
    rw [List.map_cons, h a (List.mem_cons_self a l),
      ih (fun c hc => h c (List.mem_cons_of_mem a hc))]

theorem litMatch_lowerT {s u : Text} : litMatch s (lowerT u) = litMatch s u := by
  induction s generalizing u with
  | nil => rfl
  | cons a s ih =>
    cases u with
    | nil => rfl
    | cons b u' =>
      show litMatch (a :: s) (lowerN b :: lowerT u') = _
      simp only [litMatch, lowerN_idem, ih]

theorem wordAt_lowerT (t : Text) (i : Nat) : wordAt (lowerT t) i = wordAt t i := by
  unfold wordAt lowerT
  rw [List.get?_map]
  cases t.get? i with
  | none => rfl
  | some c => exact isWord_lowerN c

theorem boundaryAt_lowerT (t : Text) (i : Nat) :
    boundaryAt (lowerT t) i = boundaryAt t i := by
  unfold boundaryAt prevWordAt
  simp only [wordAt_lowerT]

theorem matchAt_lowerT (s t : Text) (i : Nat) :
    matchAt s (lowerT t) i = matchAt s t i := by
  unfold matchAt
  rw [boundaryAt_lowerT, boundaryAt_lowerT,
    show (lowerT t).drop i = lowerT (t.drop i) from (List.map_drop lowerN t i).symm,
    litMatch_lowerT]

theorem isWord_not_isSpace {c : Nat} (h : isWord c = true) : isSpace c = false := by
  unfold isWord at h
  unfold isSpace
  simp only [Bool.or_eq_true, Bool.and_eq_true, decide_eq_true_eq, beq_iff_eq] at h
  simp only [Bool.or_eq_false_iff, beq_eq_false_iff_ne, ne_eq]
  omega

theorem slice_eq_of_litMatch {s u : Text}
    (h : litMatch s u = true)
    (hs : ∀ c ∈ s, lowerN c = c)
    (hu : ∀ c ∈ u, lowerN c = c) :
    u.take s.length = s := by
  have h1 := litMatch_map_take h
  have h2 : (u.take s.length).map lowerN = u.take s.length :=
    map_lowerN_id (fun c hc => hu c (List.take_subset _ _ hc))
  have h3 : s.map lowerN = s := map_lowerN_id hs
  rw [h2, h3] at h1
  exact h1

theorem matchAt_word_span {s t : Text} {i : Nat}
    (hlit : litMatch s (t.drop i) = true)
    (hw : ∀ c ∈ s, isWord c = true) :
    ∀ k, i ≤ k → k < i + s.length → wordAt t k = true := by
  intro k hik hks
  have hj : k - i < s.length := by omega
  have hmap := litMatch_map_take hlit
  have hget : (((t.drop i).take s.length).map lowerN).get? (k - i) =
      ((s.map lowerN).get? (k - i)) := by rw [hmap]
  rw [List.get?_map, List.get?_map, List.get?_take hj, List.get?_drop] at hget
  obtain ⟨a, ha⟩ : ∃ a, s.get? (k - i) = some a :=
    ⟨s.get ⟨k - i, hj⟩, List.get?_eq_get hj⟩
  rw [ha, show i + (k - i) = k from by omega] at hget
  cases htk : t.get? k with
  | none =>
    rw [htk] at hget
    simp at hget
  | some b =>
    rw [htk] at hget
    simp only [Option.map_some'] at hget
    have hab : lowerN b = lowerN a := by
      injection hget with hba
    unfold wordAt
    rw [htk]
    have := hw a (List.get?_mem ha)
    calc isWord b = isWord (lowerN b) := (isWord_lowerN b).symm
      _ = isWord (lowerN a) := by rw [hab]
      _ = isWord a := isWord_lowerN a
      _ = true := this

theorem matchAt_le_length {s t : Text} {i : Nat}
    (hlit : litMatch s (t.drop i) = true) (hne : s ≠ []) :
    i + s.length ≤ t.length := by
  have h1 := litMatch_length hlit
  rw [List.length_drop] at h1
  have h2 : 0 < s.length := List.length_pos.mpr hne
  omega

theorem matchAt_parts {s t : Text} {i : Nat} (hm : matchAt s t i = true) :
    boundaryAt t i = true ∧ litMatch s (t.drop i) = true ∧
    boundaryAt t (i + s.length) = true := by
  unfold matchAt at hm
  simp only [Bool.and_eq_true] at hm
  exact ⟨hm.1.1, hm.1.2, hm.2⟩

theorem not_matchAt_lt {s s' t : Text} {i : Nat}
    (hm : matchAt s t i = true) (hm' : matchAt s' t i = true)
    (hs : s ≠ []) (hw' : ∀ c ∈ s', isWord c = true)
    (hlt : s.length < s'.length) : False := by
  have h2 := (matchAt_parts hm).2.2
  have hlit' := (matchAt_parts hm').2.1
  have hspos : 0 < s.length := List.length_pos.mpr hs
  have hw1 : wordAt t (i + s.length) = true :=
    matchAt_word_span hlit' hw' (i + s.length) (by omega) (by omega)
  have hw2 : wordAt t (i + s.length - 1) = true :=
    matchAt_word_span hlit' hw' (i + s.length - 1) (by omega) (by omega)
  unfold boundaryAt prevWordAt at h2
  rw [if_neg (by omega), hw1, hw2] at h2
  simp at h2

theorem matchAt_length_eq {s s' t : Text} {i : Nat}
    (hm : matchAt s t i = true) (hm' : matchAt s' t i = true)
    (hs : s ≠ []) (hs' : s' ≠ [])
    (hw : ∀ c ∈ s, isWord c = true) (hw' : ∀ c ∈ s', isWord c = true) :
    s.length = s'.length := by
  rcases Nat.lt_trichotomy s.length s'.length with h | h | h
  · exact absurd (not_matchAt_lt hm hm' hs hw' h) (by simp)
  · exact h
  · exact absurd (not_matchAt_lt hm' hm hs' hw h) (by simp)

theorem firstAlt_some_mem {skills : List Text} {t : Text} {i : Nat} {s : Text}
    (h : firstAlt skills t i = some s) : s ∈ skills ∧ matchAt s t i = true := by
  induction skills with
  | nil => simp [firstAlt] at h
  | cons s' rest ih =>
    unfold firstAlt at h
    split at h
    · rename_i hm
      injection h with h'
      subst h'
      exact ⟨List.mem_cons_self _ _, hm⟩
    · have := ih h
      exact ⟨List.mem_cons_of_mem s' this.1, this.2⟩

theorem firstAlt_none_not {skills : List Text} {t : Text} {i : Nat}
    (h : firstAlt skills t i = none) : ∀ s ∈ skills, matchAt s t i = false := by
  induction skills with
  | nil => simp
  | cons s' rest ih =>
    unfold firstAlt at h
    split at h
    · cases h
    · rename_i hm
      intro s hsmem
      rcases List.mem_cons.mp hsmem with rfl | hs'
      · simpa using hm
      · exact ih h s hs'

theorem scanAux_succ (skills : List Text) (t : Text) (i fuel : Nat) :
    scanAux skills t i (fuel + 1) =
      match firstAlt skills t i with
      | some s => (t.drop i).take s.length :: scanAux skills t (i + max 1 s.length) fuel
      | none => if i < t.length then scanAux skills t (i + 1) fuel else [] := rfl

theorem scanAux_sound {skills : List Text} {t : Text} :
    ∀ fuel i x, x ∈ scanAux skills t i fuel →
    ∃ s j, s ∈ skills ∧ matchAt s t j = true ∧ x = (t.drop j).take s.length := by
  intro fuel
  induction fuel with
  | zero =>
    intro i x hx
    simp [scanAux] at hx
  | succ fuel ih =>
    intro i x hx
    cases hfa : firstAlt skills t i with
    | some s =>
      have hstep : scanAux skills t i (fuel + 1) =
          (t.drop i).take s.length :: scanAux skills t (i + max 1 s.length) fuel := by
        rw [scanAux_succ, hfa]
      rw [hstep] at hx
      rcases List.mem_cons.mp hx with rfl | hx'
      · obtain ⟨hmem, hm⟩ := firstAlt_some_mem hfa
        exact ⟨s, i, hmem, hm, rfl⟩
      · exact ih _ x hx'
    | none =>
      have hstep : scanAux skills t i (fuel + 1) =
          if i < t.length then scanAux skills t (i + 1) fuel else [] := by
        rw [scanAux_succ, hfa]
      rw [hstep] at hx
      by_cases hlt : i < t.length
      · rw [if_pos hlt] at hx
        exact ih _ x hx
      · rw [if_neg hlt] at hx
        cases hx

theorem scanAux_complete {skills : List Text} {t : Text}
    (hall : ∀ s ∈ skills, s ≠ [] ∧ ∀ c ∈ s, isWord c = true) :
    ∀ fuel i s j, s ∈ skills → matchAt s t j = true → i ≤ j → j < i + fuel →
    (t.drop j).take s.length ∈ scanAux skills t i fuel := by
  intro fuel
  induction fuel with
  | zero =>
    intro i s j _ _ h1 h2
    omega
  | succ fuel ih =>
    intro i s j hs hm hij hjf
    have hsne := (hall s hs).1
    have hsw := (hall s hs).2
    have hspos : 0 < s.length := List.length_pos.mpr hsne
    cases hfa : firstAlt skills t i with
    | none =>
      have hne : i ≠ j := by
        intro heq
        subst heq
        have hf := firstAlt_none_not hfa s hs
        rw [hm] at hf
        simp at hf
      have hle := matchAt_le_length (matchAt_parts hm).2.1 hsne
      have hlt : i < t.length := by omega
      have hstep : scanAux skills t i (fuel + 1) =
          if i < t.length then scanAux skills t (i + 1) fuel else [] := by
        rw [scanAux_succ, hfa]
      rw [hstep, if_pos hlt]
      exact ih (i + 1) s j hs hm (by omega) (by omega)
    | some s' =>
      obtain ⟨hs'mem, hm'⟩ := firstAlt_some_mem hfa
      have hs'ne := (hall s' hs'mem).1
      have hs'w := (hall s' hs'mem).2
      have hs'pos : 0 < s'.length := List.length_pos.mpr hs'ne
      have hmax : max 1 s'.length = s'.length := by omega
      have hstep : scanAux skills t i (fuel + 1) =
          (t.drop i).take s'.length :: scanAux skills t (i + s'.length) fuel := by
        rw [scanAux_succ, hfa]
        show (t.drop i).take s'.length :: scanAux skills t (i + max 1 s'.length) fuel = _
        rw [hmax]
      rw [hstep]
      by_cases hij' : i = j
      · subst hij'
        have hlen : s.length = s'.length :=
          matchAt_length_eq hm hm' hsne hs'ne hsw hs'w
        rw [hlen]
        exact List.mem_cons_self _ _
      · have hilt : i < j := by omega
        by_cases hjge : i + s'.length ≤ j
        · exact List.mem_cons_of_mem _ (ih (i + s'.length) s j hs hm hjge (by omega))
        · exfalso
          have hword1 : wordAt t (j - 1) = true :=
            matchAt_word_span (matchAt_parts hm').2.1 hs'w (j - 1) (by omega) (by omega)
          have hword2 : wordAt t j = true :=
            matchAt_word_span (matchAt_parts hm).2.1 hsw j (le_refl j) (by omega)
          have hb := (matchAt_parts hm).1
          unfold boundaryAt prevWordAt at hb
          rw [if_neg (by omega), hword1, hword2] at hb
          simp at hb

theorem scan_mem_iff {skills : List Text} {t : Text}
    (hall : ∀ s ∈ skills, s ≠ [] ∧ (∀ c ∈ s, isWord c = true) ∧ (∀ c ∈ s, lowerN c = c))
    (ht : ∀ c ∈ t, lowerN c = c) (x : Text) :
    x ∈ scanAux skills t 0 (t.length + 1) ↔
      x ∈ skills ∧ matchesSomewhere x t = true := by
  constructor
  · intro hx
    obtain ⟨s, j, hsmem, hm, rfl⟩ := scanAux_sound _ _ _ hx
    have hlit := (matchAt_parts hm).2.1
    have heq : (t.drop j).take s.length = s :=
      slice_eq_of_litMatch hlit (hall s hsmem).2.2
        (fun c hc => ht c (List.drop_subset _ _ hc))
    rw [heq]
    refine ⟨hsmem, ?_⟩
    unfold matchesSomewhere
    rw [List.any_eq_true]
    refine ⟨j, ?_, hm⟩
    rw [List.mem_range]
    have := matchAt_le_length hlit (hall s hsmem).1
    omega
  · rintro ⟨hxmem, hsome⟩
    unfold matchesSomewhere at hsome
    rw [List.any_eq_true] at hsome
    obtain ⟨j, hjr, hm⟩ := hsome
    rw [List.mem_range] at hjr
    have hx := scanAux_complete (fun s hs => ⟨(hall s hs).1, (hall s hs).2.1⟩)
      (t.length + 1) 0 x j hxmem hm (by omega) (by omega)
    have heq : (t.drop j).take x.length = x :=
      slice_eq_of_litMatch (matchAt_parts hm).2.1 (hall x hxmem).2.2
        (fun c hc => ht c (List.drop_subset _ _ hc))
    rw [heq] at hx
    exact hx

/-- Claim C8 as amended: when every skill is a nonempty lowercase token of
word characters (letters, digits, underscore — in particular no spaces),
the job's score equals the number of distinct skills with at least one
whole-word, case-insensitive match in the description; a skill occurring
repeatedly still contributes 1. -/
theorem c8_score_counts_distinct (skills : List Text) (d : Text)
    (hall : ∀ s ∈ skills, s ≠ [] ∧ (∀ c ∈ s, isWord c = true) ∧ (∀ c ∈ s, lowerN c = c)) :
    calculate_score skills (some d) = distinctMatchCount skills d := by
  have htrim : skills.map trimT = skills := by
    have hts : ∀ s ∈ skills, trimT s = id s := by
      intro s hs
      apply trimT_eq_self
      · intro c hc
        exact isWord_not_isSpace
          ((hall s hs).2.1 c (List.mem_of_mem_head? (Option.mem_def.mpr hc)))
      · intro c hc
        exact isWord_not_isSpace ((hall s hs).2.1 c (List.mem_of_getLast?_eq_some hc))
    rw [List.map_congr_left hts, List.map_id]
  have hlow : ∀ c ∈ lowerT d, lowerN c = c := by
    intro c hc
    obtain ⟨a, _, rfl⟩ := List.mem_map.mp hc
    exact lowerN_idem a
  have hmem : ∀ x, x ∈ scanAux skills (lowerT d) 0 ((lowerT d).length + 1) ↔
      x ∈ skills.filter (fun s => matchesSomewhere s d) := by
    intro x
    rw [List.mem_filter, scan_mem_iff hall hlow x]
    have hms : matchesSomewhere x (lowerT d) = matchesSomewhere x d := by
      unfold matchesSomewhere
      rw [show (lowerT d).length = d.length from List.length_map .. ,
        show (fun i => matchAt x (lowerT d) i) = (fun i => matchAt x d i) from
          funext (matchAt_lowerT x d)]
    rw [hms]
  have hfin : (scanAux skills (lowerT d) 0 ((lowerT d).length + 1)).toFinset =
      (skills.filter (fun s => matchesSomewhere s d)).toFinset := by
    ext x
    simp only [List.mem_toFinset]
    exact hmem x
  show ((scanAux (skills.map trimT) (lowerT d) 0 ((lowerT d).length + 1)).dedup).length =
    ((skills.filter (fun s => matchesSomewhere s d)).dedup).length
  rw [htrim, ← List.card_toFinset, ← List.card_toFinset, hfin]

/-- Claim C8, counterexample to the unrestricted claim: with the multi-word
skills `["b c", "a b"]` and description `"a b c"`, each skill has a
whole-word match, but the single left-to-right scan consumes `"a b"` and
can no longer see `"b c"`: the score is 1, not 2. -/
theorem c8_counterexample :
    calculate_score [lc "b c", lc "a b"] (some (lc "a b c")) = 1 ∧
    matchesSomewhere (lc "b c") (lc "a b c") = true ∧
    matchesSomewhere (lc "a b") (lc "a b c") = true ∧
    distinctMatchCount [lc "b c", lc "a b"] (lc "a b c") = 2 := by
  refine ⟨rfl, by decide, by decide, rfl⟩

/-- Closed witness for `c8_score_counts_distinct`: the spec's own scenario,
skills `["python", "aws", "kubernetes"]` against
`"Looking for a Python and Kubernetes engineer"`, scores 2. -/
theorem c8_score_counts_distinct_witness :
    calculate_score [lc "python", lc "aws", lc "kubernetes"]
      (some (lc "Looking for a Python and Kubernetes engineer")) = 2 := by
  rw [c8_score_counts_distinct [lc "python", lc "aws", lc "kubernetes"]
    (lc "Looking for a Python and Kubernetes engineer") (by decide)]
  decide
